import Mathlib

/-!
Verification of the WeFinance Copilot anomaly-detection and spending-analysis
core against its specification.

The aggregator functions are shallow embeddings of
`src/services/recommendation_service.py` (`_transactions_dataframe`,
`_monthly_average`, `_spending_volatility`, `_category_breakdown`), with
pandas dataframes modelled as lists of rows and float amounts modelled as
rationals.  The storage layer embeds `src/utils/storage.py` with the on-disk
JSON dictionary modelled as an association list.  The anomaly detector
(`modules/analysis.py`) and the session state machine (`utils/session.py`)
are imported by `src/app.py` but their sources are not available here; they
are modelled from the specification, as marked on each such definition.
-/

namespace WeFinance

/-- Calendar date carried by a transaction.  `pd.to_datetime` timestamps
compare lexicographically by year, then month, then day. -/
structure Date where
  year : Nat
  month : Nat
  day : Nat
deriving DecidableEq

/-- Lexicographic order on dates, as timestamp comparison does. -/
def Date.le (a b : Date) : Prop :=
  a.year < b.year ∨
    (a.year = b.year ∧ (a.month < b.month ∨ (a.month = b.month ∧ a.day ≤ b.day)))

instance : DecidableRel Date.le := by
  intro a b
  unfold Date.le
  infer_instance

theorem Date.le_total (a b : Date) : Date.le a b ∨ Date.le b a := by
  unfold Date.le
  omega

theorem Date.le_trans {a b c : Date} (h1 : Date.le a b) (h2 : Date.le b c) :
    Date.le a c := by
  unfold Date.le at *
  omega

/-- Validated transaction record (`models/entities.Transaction`): unique `id`,
calendar `date`, `merchant` (may be empty), `category` label, and a positive
decimal `amount`, modelled as a rational. -/
structure Transaction where
  id : String
  date : Date
  merchant : String
  category : String
  amount : ℚ
deriving DecidableEq

/-- One row of the pandas dataframe built by `_transactions_dataframe`:
`date`, `amount`, and the category with the `txn.category or "其他"`
default applied (Python treats the empty string as falsy). -/
structure Row where
  date : Date
  amount : ℚ
  category : String
deriving DecidableEq

/-- Row construction from a transaction, as in `_transactions_dataframe`. -/
def toRow (t : Transaction) : Row :=
  { date := t.date
    amount := t.amount
    category := if t.category = "" then "其他" else t.category }

/-- Order used by `df.sort_values("date")`. -/
def Row.le (a b : Row) : Prop := Date.le a.date b.date

instance : DecidableRel Row.le := by
  intro a b
  unfold Row.le
  infer_instance

/-- Embedding of `_transactions_dataframe`: build the rows and sort them by
date.  The sort only permutes the rows, which is all later functions can
observe. -/
def transactions_dataframe (txns : List Transaction) : List Row :=
  List.insertionSort Row.le (txns.map toRow)

/-- Calendar-month key of a row, as `date.dt.to_period("M")` produces. -/
def monthKey (r : Row) : Nat × Nat := (r.date.year, r.date.month)

/-- The distinct month keys appearing in the dataframe (the group keys of
`groupby("year_month")`). -/
def monthKeys (rows : List Row) : List (Nat × Nat) :=
  (rows.map monthKey).dedup

/-- Total amount of the rows belonging to one calendar month. -/
def monthSum (rows : List Row) (k : Nat × Nat) : ℚ :=
  ((rows.filter fun r => decide (monthKey r = k)).map (·.amount)).sum

/-- Per-month totals, the values of `groupby("year_month")["amount"].sum()`. -/
def monthlySums (rows : List Row) : List ℚ :=
  (monthKeys rows).map (monthSum rows)

/-- Arithmetic mean of a list of rationals (`Series.mean`). -/
def listMean (l : List ℚ) : ℚ := l.sum / (l.length : ℚ)

/-- Population variance of a list of rationals; `Series.std(ddof=0)` is its
square root. -/
def popVar (l : List ℚ) : ℚ :=
  ((l.map fun x => (x - listMean l) ^ 2).sum) / (l.length : ℚ)

/-- Embedding of `RecommendationService._monthly_average`: 0 for an empty
dataframe, otherwise the mean of the monthly sums (with the code's extra
guard for an empty group series). -/
def monthly_average (rows : List Row) : ℚ :=
  if rows.isEmpty then 0
  else if (monthlySums rows).isEmpty then 0
  else listMean (monthlySums rows)

/-- Embedding of `RecommendationService._spending_volatility`: 0 for an empty
dataframe, 0 when fewer than two monthly groups exist, 0 when the mean of the
monthly sums is 0, otherwise the population standard deviation of the monthly
sums divided by their mean.  The standard deviation is the real square root of
the rational population variance. -/
noncomputable def spending_volatility (rows : List Row) : ℝ :=
  if rows.isEmpty then 0
  else if (monthlySums rows).length < 2 then 0
  else if listMean (monthlySums rows) = 0 then 0
  else Real.sqrt (popVar (monthlySums rows)) / (listMean (monthlySums rows) : ℝ)

/-- The distinct category labels of the dataframe (the group keys of
`groupby("category")`). -/
def categoryKeys (rows : List Row) : List String :=
  (rows.map (·.category)).dedup

/-- Total amount of the rows in one category. -/
def catSum (rows : List Row) (c : String) : ℚ :=
  ((rows.filter fun r => decide (r.category = c)).map (·.amount)).sum

/-- Per-category totals, the series `df.groupby("category")["amount"].sum()`. -/
def categoryTotals (rows : List Row) : List (String × ℚ) :=
  (categoryKeys rows).map fun c => (c, catSum rows c)

/-- Descending order on the share entries, as the
`sorted(..., reverse=True)` call produces. -/
def shareGe (p q : String × ℚ) : Prop := q.2 ≤ p.2

instance : DecidableRel shareGe := by
  intro a b
  unfold shareGe
  infer_instance

/-- Embedding of `RecommendationService._category_breakdown`: empty mapping
for an empty dataframe or a zero total, otherwise each category's total
divided by the overall total, sorted by share descending. -/
def category_breakdown (rows : List Row) : List (String × ℚ) :=
  if rows.isEmpty then []
  else
    let totals := categoryTotals rows
    let full := (totals.map (·.2)).sum
    if full = 0 then []
    else List.insertionSort shareGe (totals.map fun p => (p.1, p.2 / full))

/-! ### Grouping lemmas

Summing the per-group totals of a group-by recovers the total of the
original column: the groups partition the rows. -/

theorem sum_map_add {K : Type} (g h : K → ℚ) :
    ∀ keys : List K,
      (keys.map fun k => g k + h k).sum = (keys.map g).sum + (keys.map h).sum := by
  intro keys
  induction keys with
  | nil => simp
  | cons k ks ih => simp [ih]; ring

theorem sum_map_ite_key {K : Type} [DecidableEq K] (k0 : K) (a : ℚ) :
    ∀ keys : List K, keys.Nodup → k0 ∈ keys →
      (keys.map fun k => if k0 = k then a else 0).sum = a := by
  intro keys
  induction keys with
  | nil => intro _ hmem; simp at hmem
  | cons k ks ih =>
    intro hnd hmem
    rcases List.nodup_cons.mp hnd with ⟨hknot, hndks⟩
    by_cases hk : k0 = k
    · subst hk
      have hzero : (ks.map fun k => if k0 = k then a else 0).sum = 0 := by
        apply List.sum_eq_zero
        intro x hx
        rcases List.mem_map.mp hx with ⟨k', hk', hval⟩
        have : k0 ≠ k' := fun h => hknot (h ▸ hk')
        simp [this] at hval
        exact hval.symm
      simp [hzero]
    · have hmem' : k0 ∈ ks := by
        rcases List.mem_cons.mp hmem with h | h
        · exact absurd h hk
        · exact h
      simp [hk, ih hndks hmem']

theorem sum_fiberwise {α K : Type} [DecidableEq K] (key : α → K) (f : α → ℚ) :
    ∀ (rows : List α) (keys : List K), keys.Nodup → (∀ r ∈ rows, key r ∈ keys) →
      (keys.map fun k =>
          ((rows.filter fun r => decide (key r = k)).map f).sum).sum
        = (rows.map f).sum := by
  intro rows
  induction rows with
  | nil => intro keys _ _; simp [List.sum_eq_zero]
  | cons r rows ih =>
    intro keys hnd hcov
    have hr : key r ∈ keys := hcov r (List.mem_cons_self r rows)
    have hcov' : ∀ x ∈ rows, key x ∈ keys := fun x hx =>
      hcov x (List.mem_cons_of_mem r hx)
    have hsplit :
        (keys.map fun k =>
            (((r :: rows).filter fun x => decide (key x = k)).map f).sum)
          = keys.map fun k =>
              (if key r = k then f r else 0)
                + ((rows.filter fun x => decide (key x = k)).map f).sum := by
      apply List.map_congr_left
      intro k _
      by_cases hk : key r = k
      · simp [List.filter_cons, hk]
      · simp [List.filter_cons, hk]
    rw [hsplit, sum_map_add, sum_map_ite_key (key r) (f r) keys hnd hr,
      ih keys hnd hcov']
    simp

theorem sum_map_div (c : ℚ) :
    ∀ l : List ℚ, (l.map fun x => x / c).sum = l.sum / c := by
  intro l
  induction l with
  | nil => simp
  | cons x xs ih => simp [ih, add_div]

/-- The monthly sums of a dataframe add up to the total of the amount
column. -/
theorem monthlySums_sum (rows : List Row) :
    (monthlySums rows).sum = (rows.map (·.amount)).sum := by
  unfold monthlySums monthKeys monthSum
  exact sum_fiberwise monthKey (·.amount) rows (rows.map monthKey).dedup
    (List.nodup_dedup _)
    (fun r hr => List.mem_dedup.mpr (List.mem_map_of_mem monthKey hr))

/-- The per-category totals add up to the total of the amount column. -/
theorem categoryTotals_sum (rows : List Row) :
    ((categoryTotals rows).map (·.2)).sum = (rows.map (·.amount)).sum := by
  unfold categoryTotals categoryKeys catSum
  rw [List.map_map]
  exact sum_fiberwise (·.category) (·.amount) rows
    (rows.map (·.category)).dedup
    (List.nodup_dedup _)
    (fun r hr => List.mem_dedup.mpr (List.mem_map_of_mem (·.category) hr))

/-! ### Transaction-level views of the aggregates -/

/-- Calendar month of a transaction, the grouping key of the spec. -/
def txnMonth (t : Transaction) : Nat × Nat := (t.date.year, t.date.month)

/-- Number of distinct calendar months among the transactions. -/
def monthCount (txns : List Transaction) : Nat :=
  ((txns.map txnMonth).dedup).length

/-- Total of the transactions' amounts. -/
def totalAmount (txns : List Transaction) : ℚ := (txns.map (·.amount)).sum

theorem df_perm (txns : List Transaction) :
    (transactions_dataframe txns).Perm (txns.map toRow) :=
  List.perm_insertionSort Row.le (txns.map toRow)

theorem df_length (txns : List Transaction) :
    (transactions_dataframe txns).length = txns.length := by
  rw [(df_perm txns).length_eq, List.length_map]

theorem df_amount_sum (txns : List Transaction) :
    ((transactions_dataframe txns).map (·.amount)).sum = totalAmount txns := by
  rw [((df_perm txns).map (·.amount)).sum_eq, List.map_map]
  rfl

theorem df_monthKeys_length (txns : List Transaction) :
    (monthKeys (transactions_dataframe txns)).length = monthCount txns := by
  unfold monthKeys monthCount
  have h1 : ((transactions_dataframe txns).map monthKey).Perm
      (txns.map txnMonth) := by
    have h2 := (df_perm txns).map monthKey
    rwa [List.map_map] at h2
  exact (h1.dedup).length_eq

theorem monthlySums_length (rows : List Row) :
    (monthlySums rows).length = (monthKeys rows).length := by
  simp [monthlySums]

theorem monthSum_df (txns : List Transaction) (k : Nat × Nat) :
    monthSum (transactions_dataframe txns) k
      = ((txns.filter fun t => decide (txnMonth t = k)).map (·.amount)).sum := by
  unfold monthSum
  have h1 := ((df_perm txns).filter fun r => decide (monthKey r = k)).map (·.amount)
  rw [h1.sum_eq, List.filter_map, List.map_map]
  rfl

/-- Claim C3: `monthly_average` returns 0 on the empty sequence, and on a
non-empty sequence returns the arithmetic mean of the per-calendar-month
sums: the total amount divided by the (positive) number of distinct months,
where each month's sum is the sum of exactly the transactions of that
month. -/
theorem monthly_average_spec (txns : List Transaction) :
    monthly_average (transactions_dataframe ([] : List Transaction)) = 0 ∧
    (txns ≠ [] →
      0 < monthCount txns ∧
      monthly_average (transactions_dataframe txns)
        = totalAmount txns / (monthCount txns : ℚ) ∧
      ∀ k, monthSum (transactions_dataframe txns) k
        = ((txns.filter fun t => decide (txnMonth t = k)).map (·.amount)).sum) := by
  constructor
  · rfl
  · intro hne
    have hlen : (transactions_dataframe txns).length = txns.length := df_length txns
    have hdfne : (transactions_dataframe txns).isEmpty = false := by
      apply List.isEmpty_eq_false.mpr
      intro hnil
      rw [hnil] at hlen
      exact hne (List.length_eq_zero.mp hlen.symm)
    rcases List.exists_mem_of_ne_nil txns hne with ⟨t, ht⟩
    have hcount : 0 < monthCount txns := by
      unfold monthCount
      apply List.length_pos.mpr
      intro hnil
      have : txnMonth t ∈ ((txns.map txnMonth).dedup) :=
        List.mem_dedup.mpr (List.mem_map_of_mem txnMonth ht)
      simp [hnil] at this
    refine ⟨hcount, ?_, fun k => monthSum_df txns k⟩
    have hmse : (monthlySums (transactions_dataframe txns)).isEmpty = false := by
      apply List.isEmpty_eq_false.mpr
      intro hnil
      have := monthlySums_length (transactions_dataframe txns)
      rw [hnil, df_monthKeys_length] at this
      simp at this
      omega
    unfold monthly_average
    rw [hdfne, hmse]
    simp only [Bool.false_eq_true, if_false]
    unfold listMean
    rw [monthlySums_sum, df_amount_sum, monthlySums_length, df_monthKeys_length]

/-- Claim C2: `spending_volatility` returns 0 when fewer than two distinct
calendar months are present (in particular for a single month or no data)
and when the mean of the monthly sums is 0; otherwise it returns the
population standard deviation of the monthly sums divided by their mean, so
the division is only performed with a nonzero divisor. -/
theorem spending_volatility_spec (txns : List Transaction) :
    (monthCount txns < 2 → spending_volatility (transactions_dataframe txns) = 0) ∧
    (listMean (monthlySums (transactions_dataframe txns)) = 0 →
      spending_volatility (transactions_dataframe txns) = 0) ∧
    (2 ≤ monthCount txns →
      listMean (monthlySums (transactions_dataframe txns)) ≠ 0 →
      spending_volatility (transactions_dataframe txns)
        = Real.sqrt (popVar (monthlySums (transactions_dataframe txns)))
            / (listMean (monthlySums (transactions_dataframe txns)) : ℝ)) := by
  have hlens : (monthlySums (transactions_dataframe txns)).length = monthCount txns := by
    rw [monthlySums_length, df_monthKeys_length]
  refine ⟨?_, ?_, ?_⟩
  · intro hlt
    unfold spending_volatility
    split
    · rfl
    · rw [hlens]
      simp [hlt]
  · intro hzero
    unfold spending_volatility
    split
    · rfl
    · split
      · rfl
      · simp [hzero]
  · intro hge hne
    have hdfne : (transactions_dataframe txns).isEmpty = false := by
      apply List.isEmpty_eq_false.mpr
      intro hnil
      have hl := df_length txns
      rw [hnil] at hl
      have : txns = [] := List.length_eq_zero.mp hl.symm
      subst this
      simp [monthCount] at hge
    unfold spending_volatility
    rw [hdfne]
    simp only [Bool.false_eq_true, if_false]
    rw [hlens]
    have h2 : ¬ monthCount txns < 2 := by omega
    rw [if_neg h2, if_neg hne]

/-- Effective category of a transaction: the `txn.category or "其他"` default
bucket applied when the label is missing (empty). -/
def effCategory (t : Transaction) : String :=
  if t.category = "" then "其他" else t.category

/-- Total amount of the transactions carrying a given effective category. -/
def catSumT (txns : List Transaction) (c : String) : ℚ :=
  ((txns.filter fun t => decide (effCategory t = c)).map (·.amount)).sum

theorem catSum_df (txns : List Transaction) (c : String) :
    catSum (transactions_dataframe txns) c = catSumT txns c := by
  unfold catSum catSumT
  have h1 := ((df_perm txns).filter fun r => decide (r.category = c)).map (·.amount)
  rw [h1.sum_eq, List.filter_map, List.map_map]
  rfl

/-- Transaction used in the counterexample to claim C1. -/
def cexTxn : Transaction :=
  { id := "t1", date := { year := 2025, month := 11, day := 1 },
    merchant := "m", category := "餐饮", amount := 2 }

/-- Claim C1, counterexample: for the single transaction of amount 2 the
values of the mapping returned by `category_breakdown` sum to 1, not to the
sum of the amounts. -/
theorem category_breakdown_cex :
    ((category_breakdown (transactions_dataframe [cexTxn])).map (·.2)).sum
      ≠ ([cexTxn].map (·.amount)).sum := by
  norm_num [category_breakdown, categoryTotals, categoryKeys, catSum,
    transactions_dataframe, toRow, cexTxn]

/-- Claim C1 (amended): `category_breakdown` returns an empty mapping on the
empty sequence; on a non-empty sequence with nonzero total it returns the
share of each effective category (its summed amount divided by the total),
and those shares sum to 1 (not to the sum of the amounts). -/
theorem category_breakdown_spec (txns : List Transaction) :
    category_breakdown (transactions_dataframe ([] : List Transaction)) = [] ∧
    (txns ≠ [] → totalAmount txns ≠ 0 →
      ((category_breakdown (transactions_dataframe txns)).map (·.2)).sum = 1 ∧
      ∀ p ∈ category_breakdown (transactions_dataframe txns),
        p.2 = catSumT txns p.1 / totalAmount txns) := by
  constructor
  · rfl
  · intro hne htot
    have hlen : (transactions_dataframe txns).length = txns.length := df_length txns
    have hdfne : (transactions_dataframe txns).isEmpty = false := by
      apply List.isEmpty_eq_false.mpr
      intro hnil
      rw [hnil] at hlen
      exact hne (List.length_eq_zero.mp hlen.symm)
    have hfull : ((categoryTotals (transactions_dataframe txns)).map (·.2)).sum
        = totalAmount txns := by
      rw [categoryTotals_sum, df_amount_sum]
    constructor
    · unfold category_breakdown
      rw [hdfne]
      simp only [Bool.false_eq_true, if_false, hfull, if_neg htot]
      have hperm := (List.perm_insertionSort shareGe
          ((categoryTotals (transactions_dataframe txns)).map
            fun p => (p.1, p.2 / totalAmount txns))).map (·.2)
      rw [hperm.sum_eq, List.map_map]
      have hcomp :
          ((categoryTotals (transactions_dataframe txns)).map
              ((·.2) ∘ fun p => (p.1, p.2 / totalAmount txns)))
            = ((categoryTotals (transactions_dataframe txns)).map (·.2)).map
                fun x => x / totalAmount txns := by
        rw [List.map_map]
        rfl
      rw [hcomp, sum_map_div, hfull, div_self htot]
    · intro p hp
      unfold category_breakdown at hp
      rw [hdfne] at hp
      simp only [Bool.false_eq_true, if_false, hfull, if_neg htot] at hp
      have hp2 := (List.perm_insertionSort shareGe
          ((categoryTotals (transactions_dataframe txns)).map
            fun q => (q.1, q.2 / totalAmount txns))).mem_iff.mp hp
      rcases List.mem_map.mp hp2 with ⟨q, hq, hpq⟩
      rcases List.mem_map.mp hq with ⟨c, _, hqc⟩
      subst hqc
      subst hpq
      simp only
      rw [catSum_df]

/-! ### Concrete sample transactions used to instantiate the theorems -/

def exTxnA : Transaction :=
  { id := "a", date := { year := 2025, month := 10, day := 28 },
    merchant := "星巴克", category := "餐饮", amount := 45 }

def exTxnB : Transaction :=
  { id := "b", date := { year := 2025, month := 11, day := 1 },
    merchant := "美团外卖", category := "餐饮", amount := 55 }

def exTxnC : Transaction :=
  { id := "c", date := { year := 2025, month := 10, day := 30 },
    merchant := "地铁出行", category := "交通", amount := 6 }

/-- Instantiation of `category_breakdown_spec` on two concrete
transactions. -/
theorem category_breakdown_spec_witness :
    ((category_breakdown (transactions_dataframe [exTxnA, exTxnC])).map (·.2)).sum
      = 1 :=
  ((category_breakdown_spec [exTxnA, exTxnC]).2 (by simp)
    (by norm_num [totalAmount, exTxnA, exTxnC])).1

/-- Instantiation of `spending_volatility_spec` on two transactions of the
same calendar month. -/
theorem spending_volatility_spec_witness :
    spending_volatility (transactions_dataframe [exTxnA, exTxnC]) = 0 :=
  (spending_volatility_spec [exTxnA, exTxnC]).1
    (by norm_num [monthCount, txnMonth, exTxnA, exTxnC])

/-- Instantiation of `monthly_average_spec` on two transactions in two
distinct calendar months. -/
theorem monthly_average_spec_witness :
    monthly_average (transactions_dataframe [exTxnA, exTxnB]) = 50 := by
  have h := ((monthly_average_spec [exTxnA, exTxnB]).2 (by simp)).2.1
  rw [h]
  norm_num [totalAmount, monthCount, txnMonth, exTxnA, exTxnB]

/-! ### Anomaly detector

The detector `compute_anomaly_report` lives in `modules/analysis.py`, which
is imported by `src/app.py` and the tests but is not among the provided
sources; it is modelled here from the specification (section 4.3). -/

/-- Sign-preserving square on the rationals.  Deviation scores are
represented by their image under this strictly monotone map, which keeps the
detector pipeline executable while `scoreR` below carries the specified
real-valued score. -/
def sqS (x : ℚ) : ℚ := if x < 0 then -(x * x) else x * x

/-- Sign-preserving square on the reals. -/
noncomputable def sqSR (x : ℝ) : ℝ := if x < 0 then -(x * x) else x * x

/-- Inverse of `sqSR`: a signed square root. -/
noncomputable def invReprR (x : ℝ) : ℝ :=
  if x < 0 then -Real.sqrt (-x) else Real.sqrt x

theorem sqSR_strictMono : StrictMono sqSR := by
  intro x y h
  unfold sqSR
  split_ifs with h1 h2 h2
  · nlinarith
  · nlinarith
  · nlinarith
  · nlinarith

theorem invReprR_sqSR (x : ℝ) : invReprR (sqSR x) = x := by
  unfold invReprR sqSR
  by_cases hx : x < 0
  · rw [if_pos hx, if_pos (by nlinarith)]
    have hxx : x * x = x ^ 2 := by ring
    rw [neg_neg, hxx, Real.sqrt_sq_eq_abs, abs_of_neg hx, neg_neg]
  · rw [if_neg hx, if_neg (by nlinarith)]
    have hxx : x * x = x ^ 2 := by ring
    rw [hxx, Real.sqrt_sq_eq_abs, abs_of_nonneg (not_lt.mp hx)]

theorem invReprR_strictMono : StrictMono invReprR := by
  intro x y h
  unfold invReprR
  split_ifs with h1 h2 h2
  · have hy : (0 : ℝ) < -x := by linarith
    have := Real.sqrt_lt_sqrt (by linarith : (0:ℝ) ≤ -y) (by linarith : -y < -x)
    linarith
  · have hx : (0 : ℝ) < Real.sqrt (-x) := Real.sqrt_pos.mpr (by linarith)
    have hy : (0 : ℝ) ≤ Real.sqrt y := Real.sqrt_nonneg y
    linarith
  · linarith
  · exact Real.sqrt_lt_sqrt (not_lt.mp h1) h

theorem sqS_cast (q : ℚ) : ((sqS q : ℚ) : ℝ) = sqSR (q : ℝ) := by
  unfold sqS sqSR
  by_cases h : q < 0
  · rw [if_pos h, if_pos (by exact_mod_cast h)]
    push_cast
    ring
  · rw [if_neg h, if_neg (by exact_mod_cast h)]
    push_cast
    ring

theorem sqS_le_sqS_iff (a b : ℚ) : sqS a ≤ sqS b ↔ a ≤ b := by
  constructor
  · intro h
    have hc : ((sqS a : ℚ) : ℝ) ≤ ((sqS b : ℚ) : ℝ) := by exact_mod_cast h
    rw [sqS_cast, sqS_cast] at hc
    have := sqSR_strictMono.le_iff_le.mp hc
    exact_mod_cast this
  · intro h
    have hc : ((a : ℚ) : ℝ) ≤ ((b : ℚ) : ℝ) := by exact_mod_cast h
    have := sqSR_strictMono.le_iff_le.mpr hc
    rw [← sqS_cast, ← sqS_cast] at this
    exact_mod_cast this

theorem sqSR_div_pos (a b : ℝ) (hb : 0 < b) :
    sqSR (a / b) = sqSR a / (b * b) := by
  unfold sqSR
  have hiff : a / b < 0 ↔ a < 0 := by
    constructor
    · intro hd
      by_contra ha
      have := div_nonneg (not_lt.mp ha) hb.le
      linarith
    · intro ha
      exact div_neg_of_neg_of_pos ha hb
  by_cases ha : a < 0
  · rw [if_pos (hiff.mpr ha), if_pos ha]
    field_simp
  · rw [if_neg (fun hc => ha (hiff.mp hc)), if_neg ha]
    field_simp

theorem popVar_nonneg (l : List ℚ) : 0 ≤ popVar l := by
  unfold popVar
  apply div_nonneg
  · apply List.sum_nonneg
    intro x hx
    rcases List.mem_map.mp hx with ⟨y, _, hy⟩
    subst hy
    positivity
  · positivity

/-- Modelled from the spec: the reference distribution used by the missing
`modules/analysis.py` detector for one transaction under test.  It is the
multiset of amounts at the same merchant excluding the transaction itself
when at least 3 such observations exist; otherwise the amounts in the same
category excluding the transaction when at least 3 exist; otherwise the
global amount distribution across all transactions. -/
def refAmounts (txns : List Transaction) (t : Transaction) : List ℚ :=
  let mOthers :=
    (txns.filter fun u => decide (u.id ≠ t.id ∧ u.merchant = t.merchant)).map (·.amount)
  if 3 ≤ mOthers.length then mOthers
  else
    let cOthers :=
      (txns.filter fun u => decide (u.id ≠ t.id ∧ u.category = t.category)).map (·.amount)
    if 3 ≤ cOthers.length then cOthers
    else txns.map (·.amount)

/-- Mean of the reference distribution. -/
def refMean (txns : List Transaction) (t : Transaction) : ℚ :=
  listMean (refAmounts txns t)

/-- Population variance of the reference distribution. -/
def refVar (txns : List Transaction) (t : Transaction) : ℚ :=
  popVar (refAmounts txns t)

/-- Population standard deviation of the reference distribution. -/
noncomputable def refStd (txns : List Transaction) (t : Transaction) : ℝ :=
  Real.sqrt ((refVar txns t : ℚ) : ℝ)

/-- Modelled from the spec: the "large fixed score" assigned to an automatic
anomaly when the reference distribution has zero variance. -/
def bigScore : ℚ := 1000000

/-- Modelled from the spec: the deviation score of the missing detector,
`(amount - referenceMean) / referenceStd` when the reference standard
deviation is positive; with zero variance, the large fixed score for an
amount strictly above the reference mean and 0 otherwise. -/
noncomputable def scoreR (txns : List Transaction) (t : Transaction) : ℝ :=
  if 0 < refVar txns t then
    ((t.amount - refMean txns t : ℚ) : ℝ) / refStd txns t
  else if refMean txns t < t.amount then ((bigScore : ℚ) : ℝ)
  else 0

/-- Executable representation of `scoreR` under the strictly monotone map
`sqSR`; this is the score value the pipeline computes and stores. -/
def scoreKey (txns : List Transaction) (t : Transaction) : ℚ :=
  if 0 < refVar txns t then sqS (t.amount - refMean txns t) / refVar txns t
  else if refMean txns t < t.amount then sqS bigScore
  else 0

theorem sqSR_scoreR (txns : List Transaction) (t : Transaction) :
    sqSR (scoreR txns t) = ((scoreKey txns t : ℚ) : ℝ) := by
  unfold scoreR scoreKey
  by_cases hv : 0 < refVar txns t
  · rw [if_pos hv, if_pos hv]
    have hvR : (0 : ℝ) < ((refVar txns t : ℚ) : ℝ) := by exact_mod_cast hv
    have hs : 0 < refStd txns t := Real.sqrt_pos.mpr hvR
    rw [sqSR_div_pos _ _ hs]
    unfold refStd
    rw [Real.mul_self_sqrt (le_of_lt hvR)]
    rw [← sqS_cast]
    push_cast
    ring
  · rw [if_neg hv, if_neg hv]
    by_cases hm : refMean txns t < t.amount
    · rw [if_pos hm, if_pos hm, ← sqS_cast]
    · rw [if_neg hm, if_neg hm]
      unfold sqSR
      norm_num

/-- Modelled from the spec: candidacy test of the missing detector.  A
transaction is flagged when its deviation score is at least the base
threshold, decided on the `sqS`-representations. -/
def flagged (txns : List Transaction) (θ : ℚ) (t : Transaction) : Bool :=
  decide (sqS θ ≤ scoreKey txns t)

theorem flagged_iff (txns : List Transaction) (θ : ℚ) (t : Transaction) :
    flagged txns θ t = true ↔ (θ : ℝ) ≤ scoreR txns t := by
  unfold flagged
  rw [decide_eq_true_eq]
  constructor
  · intro h
    have hc : ((sqS θ : ℚ) : ℝ) ≤ ((scoreKey txns t : ℚ) : ℝ) := by exact_mod_cast h
    rw [sqS_cast, ← sqSR_scoreR] at hc
    exact sqSR_strictMono.le_iff_le.mp hc
  · intro h
    have hc := sqSR_strictMono.le_iff_le.mpr h
    rw [← sqS_cast θ, sqSR_scoreR] at hc
    exact_mod_cast hc

/-- Review status of an anomaly candidate. -/
inductive AnomalyStatus where
  | pending
  | confirmed
  | fraud
deriving DecidableEq

/-- Anomaly candidate derived from a transaction, as in the spec's data
model: a back-reference to the transaction, display fields, a reason, the
stored score, and the review status. -/
structure AnomalyCandidate where
  transaction_id : String
  date : Date
  merchant : String
  amount : ℚ
  reason : String
  score : ℚ
  status : AnomalyStatus
deriving DecidableEq

/-- Modelled from the spec: construction of a fresh candidate from a flagged
transaction, with `status = pending` and the computed score. -/
def mkCandidate (txns : List Transaction) (t : Transaction) : AnomalyCandidate :=
  { transaction_id := t.id
    date := t.date
    merchant := t.merchant
    amount := t.amount
    reason := "amount deviates strongly from the typical spend for this merchant"
    score := scoreKey txns t
    status := AnomalyStatus.pending }

/-- Real-valued deviation score recovered from a candidate's stored score
representation. -/
noncomputable def candScoreR (c : AnomalyCandidate) : ℝ :=
  invReprR ((c.score : ℚ) : ℝ)

theorem candScoreR_mk (txns : List Transaction) (t : Transaction) :
    candScoreR (mkCandidate txns t) = scoreR txns t := by
  unfold candScoreR mkCandidate
  simp only
  rw [← sqSR_scoreR]
  exact invReprR_sqSR _

/-- Ordering of the report items: by score descending, ties broken by date
descending. -/
def candOrder (a b : AnomalyCandidate) : Prop :=
  b.score < a.score ∨ (b.score = a.score ∧ Date.le b.date a.date)

instance : DecidableRel candOrder := by
  intro a b
  unfold candOrder
  infer_instance

instance : IsTrans AnomalyCandidate candOrder := by
  constructor
  intro a b c hab hbc
  unfold candOrder at *
  rcases hab with h1 | ⟨h1, h1d⟩ <;> rcases hbc with h2 | ⟨h2, h2d⟩
  · exact Or.inl (lt_trans h2 h1)
  · exact Or.inl (h2 ▸ h1)
  · exact Or.inl (lt_of_lt_of_le h2 (le_of_eq h1))
  · exact Or.inr ⟨h2.trans h1, Date.le_trans h2d h1d⟩

instance : IsTotal AnomalyCandidate candOrder := by
  constructor
  intro a b
  unfold candOrder
  rcases lt_trichotomy a.score b.score with h | h | h
  · exact Or.inr (Or.inl h)
  · rcases Date.le_total a.date b.date with hd | hd
    · exact Or.inr (Or.inr ⟨h, hd⟩)
    · exact Or.inl (Or.inr ⟨h.symm, hd⟩)
  · exact Or.inl (Or.inl h)

/-- Anomaly report returned by the detector: ranked items and their count. -/
structure AnomalyReport where
  items : List AnomalyCandidate
  count : Nat
deriving DecidableEq

/-- Modelled from the spec: `compute_anomaly_report` of the missing
`modules/analysis.py`.  A transaction is a candidate when it is flagged
(score at least the base threshold) and its merchant is not whitelisted;
candidates are turned into pending `AnomalyCandidate`s and sorted by score
descending with ties broken by date descending.  An empty transaction list
yields an empty report. -/
def compute_anomaly_report (txns : List Transaction)
    (whitelist_merchants : List String) (base_threshold : ℚ) : AnomalyReport :=
  let cands := txns.filter fun t =>
    flagged txns base_threshold t && decide (t.merchant ∉ whitelist_merchants)
  let items := List.insertionSort candOrder (cands.map (mkCandidate txns))
  { items := items, count := items.length }

theorem mem_items_iff (txns : List Transaction) (W : List String) (θ : ℚ)
    (c : AnomalyCandidate) :
    c ∈ (compute_anomaly_report txns W θ).items ↔
      ∃ t ∈ txns, flagged txns θ t = true ∧ t.merchant ∉ W
        ∧ c = mkCandidate txns t := by
  unfold compute_anomaly_report
  simp only
  rw [(List.perm_insertionSort candOrder _).mem_iff]
  constructor
  · intro h
    rcases List.mem_map.mp h with ⟨t, ht, hc⟩
    rcases List.mem_filter.mp ht with ⟨htx, hcond⟩
    rcases Bool.and_eq_true_iff.mp hcond with ⟨hflag, hwl⟩
    exact ⟨t, htx, hflag, decide_eq_true_eq.mp hwl, hc.symm⟩
  · rintro ⟨t, htx, hflag, hwl, rfl⟩
    apply List.mem_map_of_mem
    apply List.mem_filter.mpr
    exact ⟨htx, Bool.and_eq_true_iff.mpr ⟨hflag, decide_eq_true_eq.mpr hwl⟩⟩

theorem countP_partition {α : Type} (p q : α → Bool) :
    ∀ l : List α,
      (l.countP fun a => p a && !q a) + (l.countP fun a => p a && q a)
        = l.countP p := by
  intro l
  induction l with
  | nil => simp
  | cons a l ih =>
    simp only [List.countP_cons]
    by_cases hp : p a = true <;> by_cases hq : q a = true <;>
      simp [hp, hq] <;> omega

theorem report_count_eq (txns : List Transaction) (W : List String) (θ : ℚ) :
    (compute_anomaly_report txns W θ).count
      = txns.countP fun t =>
          flagged txns θ t && decide (t.merchant ∉ W) := by
  unfold compute_anomaly_report
  simp only
  rw [(List.perm_insertionSort candOrder _).length_eq, List.length_map,
    ← List.countP_eq_length_filter]

theorem items_countP_merchant (txns : List Transaction) (W : List String)
    (θ : ℚ) (M : String) :
    ((compute_anomaly_report txns W θ).items.countP fun c =>
        decide (c.merchant = M))
      = txns.countP fun t =>
          (flagged txns θ t && decide (t.merchant ∉ W)) && decide (t.merchant = M) := by
  unfold compute_anomaly_report
  simp only
  rw [List.Perm.countP_congr (List.perm_insertionSort candOrder _)
    (fun x _ => rfl)]
  rw [List.countP_map, List.countP_filter]
  apply List.countP_congr
  intro t _
  simp only [Function.comp, Bool.and_eq_true, decide_eq_true_eq, mkCandidate]
  tauto

/-- Claim C4: a transaction appears among the report items only if its
deviation score is at least the base threshold and its merchant is not
whitelisted; adding a merchant to the whitelist and re-running the detector
on the same transactions removes exactly that merchant's candidates
(identical remaining candidates, scores included), with the count decreasing
by the number of removed candidates — strictly, when the merchant was
previously flagged. -/
theorem compute_anomaly_report_spec (txns : List Transaction) (W : List String)
    (θ : ℚ) (M : String) :
    (∀ c ∈ (compute_anomaly_report txns W θ).items,
        (θ : ℝ) ≤ candScoreR c ∧ c.merchant ∉ W) ∧
    (∀ c, c ∈ (compute_anomaly_report txns (M :: W) θ).items ↔
        (c ∈ (compute_anomaly_report txns W θ).items ∧ c.merchant ≠ M)) ∧
    ((compute_anomaly_report txns (M :: W) θ).count
        + ((compute_anomaly_report txns W θ).items.countP fun c =>
            decide (c.merchant = M))
      = (compute_anomaly_report txns W θ).count) ∧
    ((∃ c ∈ (compute_anomaly_report txns W θ).items, c.merchant = M) →
      (compute_anomaly_report txns (M :: W) θ).count
        < (compute_anomaly_report txns W θ).count) := by
  have honly : ∀ c ∈ (compute_anomaly_report txns W θ).items,
      (θ : ℝ) ≤ candScoreR c ∧ c.merchant ∉ W := by
    intro c hc
    rcases (mem_items_iff txns W θ c).mp hc with ⟨t, _, hflag, hwl, rfl⟩
    refine ⟨?_, hwl⟩
    rw [candScoreR_mk]
    exact (flagged_iff txns θ t).mp hflag
  have hiff : ∀ c, c ∈ (compute_anomaly_report txns (M :: W) θ).items ↔
      (c ∈ (compute_anomaly_report txns W θ).items ∧ c.merchant ≠ M) := by
    intro c
    rw [mem_items_iff, mem_items_iff]
    constructor
    · rintro ⟨t, htx, hflag, hwl, rfl⟩
      have hne : t.merchant ≠ M := fun h => hwl (h ▸ List.mem_cons_self M W)
      have hnw : t.merchant ∉ W := fun h => hwl (List.mem_cons_of_mem M h)
      exact ⟨⟨t, htx, hflag, hnw, rfl⟩, hne⟩
    · rintro ⟨⟨t, htx, hflag, hwl, rfl⟩, hne⟩
      refine ⟨t, htx, hflag, ?_, rfl⟩
      intro hmem
      rcases List.mem_cons.mp hmem with h | h
      · exact hne h
      · exact hwl h
  have hcount : (compute_anomaly_report txns (M :: W) θ).count
      + ((compute_anomaly_report txns W θ).items.countP fun c =>
          decide (c.merchant = M))
    = (compute_anomaly_report txns W θ).count := by
    rw [report_count_eq, report_count_eq, items_countP_merchant]
    have hpt : ∀ t : Transaction,
        (flagged txns θ t && decide (t.merchant ∉ (M :: W)))
          = ((flagged txns θ t && decide (t.merchant ∉ W))
              && !(decide (t.merchant = M))) := by
      intro t
      by_cases hf : flagged txns θ t = true <;>
        by_cases hM : t.merchant = M <;>
        by_cases hW : t.merchant ∈ W <;>
        simp [hf, hM, hW]
    rw [List.countP_congr fun t _ => by rw [hpt t]]
    exact countP_partition _ _ txns
  refine ⟨honly, hiff, hcount, ?_⟩
  intro hex
  have hpos : 0 < ((compute_anomaly_report txns W θ).items.countP fun c =>
      decide (c.merchant = M)) := by
    apply List.countP_pos_iff.mpr
    rcases hex with ⟨c, hc, hcm⟩
    exact ⟨c, hc, decide_eq_true_eq.mpr hcm⟩
  omega

/-! ### Concrete detector scenario: three routine purchases and one outlier
at the same merchant (the spec's own test example). -/

def wTxn1 : Transaction :=
  { id := "w1", date := { year := 2025, month := 11, day := 1 },
    merchant := "A", category := "其他", amount := 50 }

def wTxn2 : Transaction :=
  { id := "w2", date := { year := 2025, month := 11, day := 2 },
    merchant := "A", category := "其他", amount := 52 }

def wTxn3 : Transaction :=
  { id := "w3", date := { year := 2025, month := 11, day := 3 },
    merchant := "A", category := "其他", amount := 48 }

def wTxn4 : Transaction :=
  { id := "w4", date := { year := 2025, month := 11, day := 4 },
    merchant := "A", category := "其他", amount := 9000 }

def wTxns : List Transaction := [wTxn1, wTxn2, wTxn3, wTxn4]

theorem refAmounts_wTxn4 : refAmounts wTxns wTxn4 = [50, 52, 48] := by
  simp +decide [refAmounts, wTxns, wTxn1, wTxn2, wTxn3, wTxn4, List.filter_cons]

theorem flagged_wTxn4 : flagged wTxns 2 wTxn4 = true := by
  simp only [flagged, decide_eq_true_eq]
  rw [scoreKey, refVar, refMean, refAmounts_wTxn4]
  norm_num [popVar, listMean, sqS, wTxn4]

/-- Instantiation of `compute_anomaly_report_spec`: whitelisting the flagged
merchant "A" strictly decreases the report count. -/
theorem compute_anomaly_report_spec_witness :
    (compute_anomaly_report wTxns ["A"] 2).count
      < (compute_anomaly_report wTxns [] 2).count := by
  apply (compute_anomaly_report_spec wTxns [] 2 "A").2.2.2
  refine ⟨mkCandidate wTxns wTxn4, ?_, rfl⟩
  apply (mem_items_iff wTxns [] 2 (mkCandidate wTxns wTxn4)).mpr
  exact ⟨wTxn4, by simp [wTxns], flagged_wTxn4, by simp, rfl⟩

/-- Claim C6: the score `(amount - referenceMean) / referenceStd` is only
computed when the reference standard deviation is positive; with a zero
standard deviation, an amount strictly above the reference mean receives the
large fixed score (and is flagged for any threshold up to it), while an
amount equal to the reference mean scores 0 and is not flagged for any
positive threshold. -/
theorem scoreR_guard_spec (txns : List Transaction) (t : Transaction) (θ : ℚ) :
    (0 < refStd txns t →
      scoreR txns t = ((t.amount - refMean txns t : ℚ) : ℝ) / refStd txns t) ∧
    (refStd txns t = 0 → refMean txns t < t.amount →
      scoreR txns t = ((bigScore : ℚ) : ℝ)
        ∧ (θ ≤ bigScore → flagged txns θ t = true)) ∧
    (refStd txns t = 0 → t.amount = refMean txns t →
      scoreR txns t = 0 ∧ (0 < θ → flagged txns θ t = false)) := by
  have hv0 : (0 : ℝ) ≤ ((refVar txns t : ℚ) : ℝ) := by
    exact_mod_cast popVar_nonneg (refAmounts txns t)
  have hstd_pos : 0 < refStd txns t ↔ 0 < refVar txns t := by
    unfold refStd
    rw [Real.sqrt_pos]
    exact ⟨fun h => by exact_mod_cast h, fun h => by exact_mod_cast h⟩
  have hstd_zero : refStd txns t = 0 ↔ ¬ 0 < refVar txns t := by
    constructor
    · intro h hpos
      exact absurd h (ne_of_gt (hstd_pos.mpr hpos))
    · intro h
      have : refVar txns t = 0 := le_antisymm (not_lt.mp h) (popVar_nonneg _)
      unfold refStd
      rw [this]
      norm_num
  refine ⟨?_, ?_, ?_⟩
  · intro hpos
    unfold scoreR
    rw [if_pos (hstd_pos.mp hpos)]
  · intro hzero hm
    have hnv := hstd_zero.mp hzero
    constructor
    · unfold scoreR
      rw [if_neg hnv, if_pos hm]
    · intro hθ
      unfold flagged
      apply decide_eq_true
      unfold scoreKey
      rw [if_neg hnv, if_pos hm]
      exact (sqS_le_sqS_iff θ bigScore).mpr hθ
  · intro hzero heq
    have hnv := hstd_zero.mp hzero
    have hnm : ¬ refMean txns t < t.amount := by rw [heq]; exact lt_irrefl _
    constructor
    · unfold scoreR
      rw [if_neg hnv, if_neg hnm]
    · intro hθ
      unfold flagged
      apply decide_eq_false
      unfold scoreKey
      rw [if_neg hnv, if_neg hnm]
      intro hle
      have h0 : sqS 0 = 0 := by norm_num [sqS]
      rw [← h0] at hle
      have := (sqS_le_sqS_iff θ 0).mp hle
      linarith

/-- Zero-variance scenario: three identical purchases and one much larger
one at the same merchant. -/
def zTxn1 : Transaction :=
  { id := "z1", date := { year := 2025, month := 11, day := 1 },
    merchant := "B", category := "其他", amount := 50 }

def zTxn2 : Transaction :=
  { id := "z2", date := { year := 2025, month := 11, day := 2 },
    merchant := "B", category := "其他", amount := 50 }

def zTxn3 : Transaction :=
  { id := "z3", date := { year := 2025, month := 11, day := 3 },
    merchant := "B", category := "其他", amount := 50 }

def zTxn4 : Transaction :=
  { id := "z4", date := { year := 2025, month := 11, day := 4 },
    merchant := "B", category := "其他", amount := 9000 }

def zTxns : List Transaction := [zTxn1, zTxn2, zTxn3, zTxn4]

theorem refAmounts_zTxn4 : refAmounts zTxns zTxn4 = [50, 50, 50] := by
  simp +decide [refAmounts, zTxns, zTxn1, zTxn2, zTxn3, zTxn4, List.filter_cons]

theorem refVar_zTxn4 : refVar zTxns zTxn4 = 0 := by
  rw [refVar, refAmounts_zTxn4]
  norm_num [popVar, listMean]

/-- Instantiation of `scoreR_guard_spec` on the zero-variance scenario: the
outlier receives the large fixed score and is flagged at threshold 2. -/
theorem scoreR_guard_spec_witness :
    scoreR zTxns zTxn4 = ((bigScore : ℚ) : ℝ) ∧ flagged zTxns 2 zTxn4 = true := by
  have hstd : refStd zTxns zTxn4 = 0 := by
    rw [refStd, refVar_zTxn4]
    norm_num
  have hm : refMean zTxns zTxn4 < zTxn4.amount := by
    rw [refMean, refAmounts_zTxn4]
    norm_num [listMean, zTxn4]
  have h := (scoreR_guard_spec zTxns zTxn4 2).2.1 hstd hm
  exact ⟨h.1, h.2 (by norm_num [bigScore])⟩

/-- Claim C7: the detector is a pure function (identical inputs give the
identical report) and its items are sorted by real deviation score
descending, ties broken by date descending. -/
theorem compute_anomaly_report_ordered (txns : List Transaction)
    (W : List String) (θ : ℚ) :
    compute_anomaly_report txns W θ = compute_anomaly_report txns W θ ∧
    (compute_anomaly_report txns W θ).items.Pairwise
      (fun a b => candScoreR b < candScoreR a ∨
        (candScoreR b = candScoreR a ∧ Date.le b.date a.date)) := by
  refine ⟨rfl, ?_⟩
  have hs := List.sorted_insertionSort candOrder
    ((txns.filter fun t =>
        flagged txns θ t && decide (t.merchant ∉ W)).map (mkCandidate txns))
  unfold compute_anomaly_report
  simp only
  apply List.Pairwise.imp ?_ hs
  intro a b hab
  rcases hab with h | ⟨h, hd⟩
  · left
    have hc : ((b.score : ℚ) : ℝ) < ((a.score : ℚ) : ℝ) := by exact_mod_cast h
    exact invReprR_strictMono hc
  · right
    constructor
    · unfold candScoreR
      rw [h]
    · exact hd

/-! ### Anomaly review state machine

The session helpers (`utils/session.py`: `sync_anomaly_state`,
`record_anomaly_feedback`, `update_anomaly_state`, trusted-merchant
management) are imported by `src/app.py` and exercised by
`src/tests/test_session_state.py`, but their source is not among the
provided files; they are modelled from the specification (section 4.4 and
the error-handling design of section 7). -/

/-- Terminal feedback decision on an anomaly candidate. -/
inductive FeedbackDecision where
  | confirmed
  | fraud
deriving DecidableEq

/-- Status recorded in history for a decision. -/
def FeedbackDecision.toStatus : FeedbackDecision → AnomalyStatus
  | FeedbackDecision.confirmed => AnomalyStatus.confirmed
  | FeedbackDecision.fraud => AnomalyStatus.fraud

/-- Session-scoped anomaly review state: pending `active` items, reviewed
`history` items, and a user-facing message. -/
structure AnomalyState where
  active : List AnomalyCandidate
  history : List AnomalyCandidate
  message : String
deriving DecidableEq

/-- Transaction ids of the currently pending candidates. -/
def activeIds (s : AnomalyState) : List String :=
  s.active.map (·.transaction_id)

/-- Transaction ids of the reviewed candidates. -/
def historyIds (s : AnomalyState) : List String :=
  s.history.map (·.transaction_id)

/-- Modelled from the spec: `sync_anomaly_state` of the missing
`utils/session.py`.  Replaces `active` with the report's items filtered to
exclude every transaction id already present in `history`, and sets the
user-facing message when the report is empty. -/
def sync_anomaly_state (report : AnomalyReport) (s : AnomalyState) :
    AnomalyState :=
  { active := report.items.filter fun c =>
      decide (c.transaction_id ∉ historyIds s)
    history := s.history
    message := if report.items.isEmpty then "未检测到异常消费" else "" }

/-- Error raised on an invalid review transition. -/
inductive SessionError where
  | invalidStateTransition
deriving DecidableEq

/-- Modelled from the spec: `record_anomaly_feedback` of the missing
`utils/session.py`.  When the candidate's transaction id is currently
pending (present in `active`), a copy of the candidate with the decision as
its status is appended to `history` and `active` is left untouched; for a
transaction id not currently pending, the feedback is rejected with an
`InvalidStateTransition`-class error. -/
def record_anomaly_feedback (c : AnomalyCandidate) (d : FeedbackDecision)
    (s : AnomalyState) : Except SessionError AnomalyState :=
  if c.transaction_id ∈ activeIds s then
    Except.ok { s with
      history := s.history ++ [{ c with status := d.toStatus }] }
  else Except.error SessionError.invalidStateTransition

/-- Claim C5: `sync_anomaly_state` replaces `active` with the report's items
minus everything already reviewed, so after it no transaction id is both
active and in history; and once feedback on a candidate is recorded, a
subsequent sync — even with a report still containing that id — never
reintroduces it. -/
theorem sync_anomaly_state_spec (report : AnomalyReport) (s : AnomalyState)
    (c : AnomalyCandidate) :
    ((sync_anomaly_state report s).active
      = report.items.filter fun x => decide (x.transaction_id ∉ historyIds s)) ∧
    (historyIds (sync_anomaly_state report s) = historyIds s) ∧
    (∀ i, i ∈ activeIds (sync_anomaly_state report s) →
      i ∉ historyIds (sync_anomaly_state report s)) ∧
    (∀ s', record_anomaly_feedback c FeedbackDecision.confirmed s = Except.ok s' →
      c.transaction_id ∉ activeIds (sync_anomaly_state report s')) := by
  refine ⟨rfl, rfl, ?_, ?_⟩
  · intro i hi
    rcases List.mem_map.mp hi with ⟨x, hx, hxi⟩
    rcases List.mem_filter.mp hx with ⟨_, hcond⟩
    have := decide_eq_true_eq.mp hcond
    rw [← hxi]
    exact this
  · intro s' hrec
    unfold record_anomaly_feedback at hrec
    by_cases hmem : c.transaction_id ∈ activeIds s
    · rw [if_pos hmem] at hrec
      have hs' := (Except.ok.injEq _ _).mp hrec
      intro hin
      rcases List.mem_map.mp hin with ⟨x, hx, hxi⟩
      rcases List.mem_filter.mp hx with ⟨_, hcond⟩
      apply decide_eq_true_eq.mp hcond
      unfold historyIds
      rw [← hs']
      simp only [List.map_append]
      apply List.mem_append_right
      simp [hxi]
    · rw [if_neg hmem] at hrec
      exact absurd hrec (by simp)

/-- Claim C8: successful feedback recording appends a copy of the candidate
carrying the decision's status to `history` and leaves `active` untouched —
in particular the candidate is still active afterwards; its removal from
`active` is a separate caller step. -/
theorem record_anomaly_feedback_spec (c : AnomalyCandidate)
    (d : FeedbackDecision) (s s' : AnomalyState)
    (h : record_anomaly_feedback c d s = Except.ok s') :
    s'.active = s.active ∧
    s'.history = s.history ++ [{ c with status := d.toStatus }] ∧
    (c ∈ s.active → c ∈ s'.active) := by
  unfold record_anomaly_feedback at h
  by_cases hmem : c.transaction_id ∈ activeIds s
  · rw [if_pos hmem] at h
    have hs' := (Except.ok.injEq _ _).mp h
    rw [← hs']
    exact ⟨rfl, rfl, fun hc => hc⟩
  · rw [if_neg hmem] at h
    exact absurd h (by simp)

/-- Claim C9: feedback on a transaction id that is not currently pending is
rejected with the `InvalidStateTransition`-class error; no updated state
(and in particular no extended history) is ever produced. -/
theorem record_anomaly_feedback_invalid (c : AnomalyCandidate)
    (d : FeedbackDecision) (s : AnomalyState)
    (h : c.transaction_id ∉ activeIds s) :
    record_anomaly_feedback c d s
        = Except.error SessionError.invalidStateTransition ∧
    ∀ s', record_anomaly_feedback c d s ≠ Except.ok s' := by
  unfold record_anomaly_feedback
  rw [if_neg h]
  exact ⟨rfl, fun s' hok => by simp at hok⟩

/-! ### Concrete review-state scenario -/

def exCand : AnomalyCandidate :=
  { transaction_id := "txn-200"
    date := { year := 2025, month := 11, day := 5 }
    merchant := "可疑商户"
    amount := 9100
    reason := "异常高额消费"
    score := 100
    status := AnomalyStatus.pending }

def exState : AnomalyState := { active := [exCand], history := [], message := "" }

def exReport : AnomalyReport := { items := [exCand], count := 1 }

def exStateAfter : AnomalyState :=
  { active := [exCand]
    history := [{ exCand with status := AnomalyStatus.confirmed }]
    message := "" }

def exEmptyState : AnomalyState := { active := [], history := [], message := "" }

/-- Instantiation of `sync_anomaly_state_spec`: after confirming the
candidate, a sync with a report still containing it does not reintroduce
it. -/
theorem sync_anomaly_state_spec_witness :
    "txn-200" ∉ activeIds (sync_anomaly_state exReport exStateAfter) := by
  have hrec : record_anomaly_feedback exCand FeedbackDecision.confirmed exState
      = Except.ok exStateAfter := by
    simp +decide [record_anomaly_feedback, activeIds, exState, exCand,
      exStateAfter, FeedbackDecision.toStatus]
  exact (sync_anomaly_state_spec exReport exState exCand).2.2.2 exStateAfter hrec

/-- Instantiation of `record_anomaly_feedback_spec`: recording feedback
leaves the candidate in `active` and appends the decided copy to
`history`. -/
theorem record_anomaly_feedback_spec_witness :
    exStateAfter.active = exState.active ∧ exCand ∈ exStateAfter.active := by
  have hrec : record_anomaly_feedback exCand FeedbackDecision.confirmed exState
      = Except.ok exStateAfter := by
    simp +decide [record_anomaly_feedback, activeIds, exState, exCand,
      exStateAfter, FeedbackDecision.toStatus]
  have h := record_anomaly_feedback_spec exCand FeedbackDecision.confirmed
    exState exStateAfter hrec
  exact ⟨h.1, h.2.2 (by simp [exState])⟩

/-- Instantiation of `record_anomaly_feedback_invalid`: feedback on a
candidate whose transaction id is not pending is rejected. -/
theorem record_anomaly_feedback_invalid_witness :
    record_anomaly_feedback exCand FeedbackDecision.confirmed exEmptyState
      = Except.error SessionError.invalidStateTransition :=
  (record_anomaly_feedback_invalid exCand FeedbackDecision.confirmed
    exEmptyState (by simp [activeIds, exEmptyState])).1

/-! ### File storage backend

Embedding of `src/utils/storage.py`.  The JSON dictionary held in the
storage file is modelled as an association list from namespaced string keys
to values; the file I/O of `_load_all`/`_save_all` is identified with
reading and returning this dictionary, so a save in the model always
succeeds (returning `true`, as `_save_all` does on a successful write). -/

/-- Namespace string prepended to every storage key (the module-level
constant of `storage.py`). -/
def storageNS : String := "wefinance_"

/-- A key with the storage namespace applied (`f"{...}{key}"`). -/
def nsKey (k : String) : String := storageNS ++ k

/-- The persisted dictionary: namespaced keys to values. -/
def Store (V : Type) : Type := List (String × V)

/-- Embedding of `FileStorageBackend.save`: set the namespaced key in the
dictionary and report success. -/
def FileStorageBackend.save {V : Type} (st : Store V) (k : String) (v : V) :
    Bool × Store V :=
  (true, (List.filter (fun p => decide (p.1 ≠ nsKey k)) st) ++ [(nsKey k, v)])

/-- Embedding of `FileStorageBackend.load`: look the namespaced key up,
falling back to the supplied default. -/
def FileStorageBackend.load {V : Type} (st : Store V) (k : String) (d : V) : V :=
  match List.find? (fun p => decide (p.1 = nsKey k)) st with
  | some p => p.2
  | none => d

/-- Embedding of `save_to_storage` (delegates to the backend). -/
def save_to_storage {V : Type} (st : Store V) (k : String) (v : V) :
    Bool × Store V :=
  FileStorageBackend.save st k v

/-- Embedding of `load_from_storage` (delegates to the backend). -/
def load_from_storage {V : Type} (st : Store V) (k : String) (d : V) : V :=
  FileStorageBackend.load st k d

theorem nsKey_injective {a b : String} (h : nsKey a = nsKey b) : a = b := by
  unfold nsKey storageNS at h
  have hd : ("wefinance_" ++ a).data = ("wefinance_" ++ b).data := by rw [h]
  rw [String.data_append, String.data_append] at hd
  exact String.ext (List.append_cancel_left hd)

theorem find?_after_save {V : Type} (key : String) (v : V) :
    ∀ st : Store V,
      List.find? (fun p => decide (p.1 = key))
          ((List.filter (fun p => decide (p.1 ≠ key)) st) ++ [(key, v)])
        = some (key, v) := by
  intro st
  induction st with
  | nil => simp
  | cons p st ih =>
    rw [List.filter_cons]
    by_cases h : p.1 = key
    · have hcond : (decide (p.1 ≠ key)) = false := by simp [h]
      rw [hcond]
      simp only [Bool.false_eq_true, if_false]
      exact ih
    · have hcond : (decide (p.1 ≠ key)) = true := by simp [h]
      rw [hcond, if_pos rfl, List.cons_append,
        List.find?_cons_of_neg _ (by simp [h])]
      exact ih

theorem find?_filter_of_imp {V : Type} (p q : String × V → Bool)
    (himp : ∀ x, p x = true → q x = true) :
    ∀ st : Store V, List.find? p (List.filter q st) = List.find? p st := by
  intro st
  induction st with
  | nil => rfl
  | cons x st ih =>
    rw [List.filter_cons]
    by_cases hq : q x = true
    · rw [if_pos hq, List.find?_cons, List.find?_cons]
      cases hp : p x
      · exact ih
      · rfl
    · have hp : p x = false := by
        cases hpx : p x
        · rfl
        · exact absurd (himp x hpx) hq
      rw [if_neg (by simp [hq]), List.find?_cons, hp]
      exact ih

/-- Claim C10: a successful `save_to_storage` is observed by a subsequent
`load_from_storage` of the same key; a key whose namespaced form was never
stored loads as the supplied default, and saving under a different key does
not disturb it. -/
theorem storage_roundtrip {V : Type} (st : Store V) (k k' : String)
    (v v' : V) (d : V) :
    ((save_to_storage st k v).1 = true →
      load_from_storage (save_to_storage st k v).2 k d = v) ∧
    (nsKey k ∉ st.map Prod.fst → load_from_storage st k d = d) ∧
    (k' ≠ k →
      load_from_storage (save_to_storage st k' v').2 k d
        = load_from_storage st k d) := by
  refine ⟨?_, ?_, ?_⟩
  · intro _
    unfold load_from_storage save_to_storage FileStorageBackend.load
      FileStorageBackend.save
    rw [find?_after_save (nsKey k) v st]
  · intro hk
    unfold load_from_storage FileStorageBackend.load
    have hnone : List.find? (fun p => decide (p.1 = nsKey k)) st = none := by
      apply List.find?_eq_none.mpr
      intro x hx
      simp only [decide_eq_true_eq]
      intro hx1
      exact hk (hx1 ▸ List.mem_map_of_mem Prod.fst hx)
    rw [hnone]
  · intro hne
    unfold load_from_storage save_to_storage FileStorageBackend.load
      FileStorageBackend.save
    have hkk : nsKey k' ≠ nsKey k := fun h => hne (nsKey_injective h)
    rw [List.find?_append]
    have htail : List.find? (fun p => decide (p.1 = nsKey k))
        ([(nsKey k', v')] : Store V) = none := by
      simp [hkk]
    rw [htail]
    rw [find?_filter_of_imp _ _ ?_ st]
    · cases List.find? (fun p => decide (p.1 = nsKey k)) st <;> simp
    · intro x hx
      simp only [decide_eq_true_eq] at hx
      simp only [decide_not, Bool.not_eq_true', decide_eq_false_iff_not]
      rw [hx]
      exact hkk.symm

/-- Instantiation of `storage_roundtrip` on a concrete save/load pair. -/
theorem storage_roundtrip_witness :
    load_from_storage
        (save_to_storage ([] : Store String) "transactions" "payload").2
        "transactions" "default"
      = "payload"
    ∧ load_from_storage ([] : Store String) "transactions" "default"
      = "default"
    ∧ load_from_storage
        (save_to_storage ([] : Store String) "budget" "5000").2
        "transactions" "default"
      = load_from_storage ([] : Store String) "transactions" "default" := by
  refine ⟨?_, ?_, ?_⟩
  · exact (storage_roundtrip ([] : Store String) "transactions" "budget"
      "payload" "5000" "default").1 rfl
  · exact (storage_roundtrip ([] : Store String) "transactions" "budget"
      "payload" "5000" "default").2.1 (by simp)
  · exact (storage_roundtrip ([] : Store String) "transactions" "budget"
      "payload" "5000" "default").2.2 (by decide)

end WeFinance
